import Mathlib

/-!
Shallow embedding of the ClearQuote NL→SQL system (`src/nl_to_sql_engine.py`)
and proofs about its safety-validation gate and pipeline orchestrator.

Python strings are modelled as `List Char`.  ASCII case mapping is modelled
with `Char.toUpper`, which agrees with Python `str.upper` on ASCII text (all
the validator's keywords and patterns are ASCII).  Python's regular
expressions used by the validator contain no alternation and no unbounded
wildcards other than `\s*` followed by a non-space literal and `.*` inside
the comment pattern, so each compiles to a deterministic scanning function,
written out below next to its source regex.
-/

/-- Turn a Lean string literal into the `List Char` model of a Python string. -/
def S (s : String) : List Char := s.data

/-- Decimal rendering of a natural number, as Python `f"{n}"` produces. -/
def natL (n : Nat) : List Char := (Nat.repr n).data

/-- Python `str.upper()` restricted to ASCII text. -/
def upper (l : List Char) : List Char := l.map Char.toUpper

/-- Python whitespace (default `str.strip` / regex `\s`), ASCII range:
space, tab, newline, vertical tab, form feed, carriage return. -/
def isWs (c : Char) : Bool :=
  c == ' ' || c == '\t' || c == '\n' || c == '\x0b' || c == '\x0c' || c == '\r'

/-- Python `str.lstrip()`. -/
def lstripWs (l : List Char) : List Char := l.dropWhile isWs

/-- Python `str.rstrip()`. -/
def rstripWs (l : List Char) : List Char := (l.reverse.dropWhile isWs).reverse

/-- Python `str.strip()`. -/
def pyStrip (l : List Char) : List Char := rstripWs (lstripWs l)

/-- Python `str.rstrip(';')`. -/
def rstripSemi (l : List Char) : List Char := (l.reverse.dropWhile (· == ';')).reverse

/-- `ciStarts kw l` : the text `l` starts with keyword `kw` up to ASCII case
(`kw` is given upper-cased); models a case-insensitive literal at the current
regex position. -/
def ciStarts : List Char → List Char → Bool
  | [], _ => true
  | _ :: _, [] => false
  | k :: ks, c :: cs => (k == c.toUpper) && ciStarts ks cs

/-- First character test. -/
def headIs (a : Char) : List Char → Bool
  | [] => false
  | c :: _ => c == a

/-- `anySuffix p l` : some suffix of `l` satisfies `p`.  This is the semantics
of `re.search`: the pattern's matcher `p` is tried at every start position. -/
def anySuffix (p : List Char → Bool) : List Char → Bool
  | [] => p []
  | c :: rest => p (c :: rest) || anySuffix p rest

/-- Matcher at one position for the regexes `;\s*DROP` and `;\s*DELETE`
(with `re.IGNORECASE`): a literal `;`, then greedy `\s*`, then the keyword.
Since the keyword starts with a non-whitespace letter, a match consumes
exactly the maximal whitespace run, so `dropWhile isWs` is exact. -/
def hereSemiKw (kw : List Char) : List Char → Bool
  | [] => false
  | c :: rest => c == ';' && ciStarts kw (rest.dropWhile isWs)

/-- Matcher at one position for the regex `--\s`. -/
def hereDdash : List Char → Bool
  | c1 :: c2 :: c3 :: _ => c1 == '-' && c2 == '-' && isWs c3
  | _ => false

/-- Scanner for the part of regex `/\*.*\*/` after the opening `/*`:
succeeds iff a literal `*/` occurs before the end of text and before any
newline (`.` does not match `\n`). -/
def afterOpen : List Char → Bool
  | [] => false
  | c :: rest => (c == '*' && headIs '/' rest) || (!(c == '\n') && afterOpen rest)

/-- Matcher at one position for the regex `/\*.*\*/`. -/
def hereComment : List Char → Bool
  | c1 :: c2 :: rest => c1 == '/' && c2 == '*' && afterOpen rest
  | _ => false

/-- Matcher at one position for the regexes `benchmark\s*\(` and `sleep\s*\(`
(with `re.IGNORECASE`): the keyword, greedy `\s*`, then a literal `(`.
As `(` is not whitespace, `dropWhile isWs` is exact. -/
def hereKwParen (kw : List Char) (l : List Char) : Bool :=
  ciStarts kw l && headIs '(' ((l.drop kw.length).dropWhile isWs)

/-- The seven entries of `injection_patterns` in `SQLValidator.validate_query`,
named in source order. -/
inductive PatId
  | semiDrop
  | semiDelete
  | ddashWs
  | commentPat
  | atVersion
  | benchmarkCall
  | sleepCall
deriving DecidableEq

/-- `re.search(pattern, query, re.IGNORECASE)` for each configured pattern. -/
def patMatch : PatId → List Char → Bool
  | .semiDrop, q => anySuffix (hereSemiKw (S "DROP")) q
  | .semiDelete, q => anySuffix (hereSemiKw (S "DELETE")) q
  | .ddashWs, q => anySuffix hereDdash q
  | .commentPat, q => anySuffix hereComment q
  | .atVersion, q => anySuffix (fun l => ciStarts (S "@@VERSION") l) q
  | .benchmarkCall, q => anySuffix (hereKwParen (S "BENCHMARK")) q
  | .sleepCall, q => anySuffix (hereKwParen (S "SLEEP")) q

/-- The source text of each regex, as interpolated into the rejection reason
`f"Potential SQL injection detected: {pattern}"`. -/
def patSource : PatId → List Char
  | .semiDrop => S ";\\s*DROP"
  | .semiDelete => S ";\\s*DELETE"
  | .ddashWs => S "--\\s"
  | .commentPat => S "/\\*.*\\*/"
  | .atVersion => S "@@version"
  | .benchmarkCall => S "benchmark\\s*\\("
  | .sleepCall => S "sleep\\s*\\("

/-- The injection pattern list, in source order. -/
def INJ_LIST : List PatId :=
  [.semiDrop, .semiDelete, .ddashWs, .commentPat, .atVersion, .benchmarkCall, .sleepCall]

/-- `SQLValidator.FORBIDDEN_KEYWORDS`.  The Python source stores these in a
`set`, whose iteration order is implementation-defined; they are listed here
in the order of the source literal.  Note `'xp_cmdshell'` is lower-case in
the source while every query is upper-cased before the membership test. -/
def FORBIDDEN_KEYWORDS : List (List Char) :=
  [S "DROP", S "DELETE", S "INSERT", S "UPDATE", S "ALTER", S "CREATE",
   S "TRUNCATE", S "GRANT", S "REVOKE", S "EXECUTE", S "EXEC", S "CALL",
   S ";--", S "UNION", S "INTO OUTFILE", S "LOAD_FILE", S "xp_cmdshell"]

/-- The `for keyword in cls.FORBIDDEN_KEYWORDS: if keyword in query_upper`
loop: the first keyword (in iteration order) occurring in the upper-cased
query. -/
def firstForbidden (q : List Char) : Option (List Char) :=
  FORBIDDEN_KEYWORDS.find? (fun kw => decide (kw <:+: upper q))

/-- `query_upper.strip().startswith('SELECT')`. -/
def selectOk (q : List Char) : Bool :=
  decide ((S "SELECT") <+: pyStrip (upper q))

/-- The `for pattern in injection_patterns: if re.search(...)` loop: the
first matching pattern in source order. -/
def firstInj (q : List Char) : Option PatId :=
  INJ_LIST.find? (fun p => patMatch p q)

/-- The rejection reasons `SQLValidator.validate_query` can produce. -/
inductive Reason
  | forbidden (kw : List Char)
  | notSelect
  | multipleStatements
  | injection (p : PatId)
deriving DecidableEq

/-- The reason string returned as the second component of the Python tuple. -/
def reasonText : Reason → List Char
  | .forbidden kw => S "Forbidden operation detected: " ++ kw
  | .notSelect => S "Query must start with SELECT"
  | .multipleStatements => S "Multiple statements not allowed"
  | .injection p => S "Potential SQL injection detected: " ++ patSource p

/-- `SQLValidator.validate_query`.  `none` models the accepting return
`(True, None)`; `some r` models `(False, reason)`.  The four checks run in
the source's order with early return: forbidden-keyword scan on the
upper-cased query, `SELECT` start on the stripped upper-cased query,
`query.count(';') > 1` on the raw query, then the injection-pattern scan on
the raw query. -/
def validate_query (q : List Char) : Option Reason :=
  match firstForbidden q with
  | some kw => some (Reason.forbidden kw)
  | none =>
    if selectOk q then
      if 1 < q.count ';' then some Reason.multipleStatements
      else
        match firstInj q with
        | some p => some (Reason.injection p)
        | none => none
    else some Reason.notSelect

/-- `SQLValidator.sanitize_limit`: if `'LIMIT'` does not occur in the
upper-cased query, strip trailing `';'` and append `f' LIMIT {max_limit};'`;
otherwise return the query unchanged.  The call site in `generate_sql` uses
the default `max_limit = 1000`. -/
def sanitize_limit (q : List Char) (max_limit : Nat) : List Char :=
  if decide ((S "LIMIT") <:+: upper q) then q
  else rstripSemi q ++ S " LIMIT " ++ natL max_limit ++ S ";"

/-- Number of (possibly overlapping) occurrences of `pat` in `l`
(`"LIMIT"` cannot overlap itself, so this coincides with Python
`str.count` for the uses below). -/
def countOccur (pat : List Char) : List Char → Nat
  | [] => 0
  | c :: rest => (if pat <+: (c :: rest) then 1 else 0) + countOccur pat rest

/-! ## Pipeline embedding

The translator (Groq call + JSON parse), the relational store, and the
answer-rendering service are external collaborators; each is modelled as an
oracle describing the outcome of its one call per pipeline invocation. -/

/-- A result row: Python builds `dict(row)` per row; rendered as an ordered
field-name/value association (values in their rendered string form). -/
def Row : Type := List (List Char × List Char)

instance : DecidableEq Row := by
  unfold Row
  infer_instance

/-- The JSON object parsed from the translation service's reply.  Keys the
code reads may be absent (`dict.get` with defaults), hence the `Option`s. -/
structure RespJson where
  sql : Option (List Char)
  explanation : Option (List Char)
  assumptions : Option (List (List Char))
  confidence : Option Rat
deriving DecidableEq

/-- Outcome of the translation-service call in `generate_sql`: either some
exception was raised (network error, malformed JSON, ...) — caught by the
`except` block — or a JSON object was parsed. -/
inductive LLMOutcome
  | exn (e : List Char)
  | json (j : RespJson)
deriving DecidableEq

/-- The three dict shapes `NLToSQLConverter.generate_sql` returns:
`{'success': False, 'error': ..., 'sql': None}` on an exception,
`{'success': False, 'error': ..., 'sql': candidate}` on a validation
rejection, and the parsed JSON with `sql` overwritten by the sanitized query
and `success: True` otherwise. -/
inductive GenResult
  | genError (error : List Char)
  | rejected (error : List Char) (sql : List Char)
  | ok (j : RespJson) (sql : List Char)
deriving DecidableEq

/-- `NLToSQLConverter.generate_sql` as a function of the service outcome:
read `response_json.get('sql', '')`, validate it, and either report the
validation failure (keeping the candidate) or install
`sanitize_limit(sql)` and `success=True`. -/
def generate_sql (o : LLMOutcome) : GenResult :=
  match o with
  | .exn e => .genError (S "Failed to generate SQL: " ++ e)
  | .json j =>
    let sql := j.sql.getD []
    match validate_query sql with
    | some r => .rejected (S "Generated SQL failed validation: " ++ reasonText r) sql
    | none => .ok j (sanitize_limit sql 1000)

/-- Behaviour of the relational store for one `execute_query` call:
`psycopg2.connect` raises, or `cursor.execute`/`fetchall` raises after the
connection was opened, or the query returns rows. -/
inductive DBBehavior
  | connectFails (e : List Char)
  | execFails (e : List Char)
  | returns (data : List Row)

/-- The two dict shapes `DatabaseExecutor.execute_query` returns:
`{'success': True, 'data': rows, 'row_count': len(rows), 'error': None}` or
`{'success': False, 'data': None, 'row_count': 0, 'error': str(e)}`. -/
inductive ExecResult
  | ok (data : List Row)
  | fail (error : List Char)
deriving DecidableEq

/-- `DatabaseExecutor.execute_query`, with the number of currently open
store connections threaded through explicitly.  `psycopg2.connect` opens a
connection; `conn.close()` closes it.  The `except` handler returns the
error dict directly — there is no `finally`/`with`, so nothing closes the
connection on the error path after a successful `connect`. -/
def execute_query (b : DBBehavior) (conns : Nat) : ExecResult × Nat :=
  match b with
  | .connectFails e => (.fail e, conns)
  | .execFails e =>
    let opened := conns + 1
    (.fail e, opened)
  | .returns data =>
    let opened := conns + 1
    let closed := opened - 1
    (.ok data, closed)

/-- Join string pieces with a separator (Python `", ".join(...)`). -/
def joinSep (sep : List Char) : List (List Char) → List Char
  | [] => []
  | [x] => x
  | x :: xs => x ++ sep ++ joinSep sep xs

/-- One row as `"k: v, k: v"`. -/
def rowLine (row : Row) : List Char :=
  joinSep (S ", ") (row.map (fun kv => kv.1 ++ S ": " ++ kv.2))

/-- The numbered listing `f"{i}. " + row + "\n"` over the first rows,
starting at 1. -/
def numberedLines (i : Nat) : List Row → List Char
  | [] => []
  | row :: rest => natL i ++ S ". " ++ rowLine row ++ S "\n" ++ numberedLines (i + 1) rest

/-- `AnswerGenerator._format_results_simple`: a single one-field row renders
as `"Result: <value>"`; otherwise a header, up to five numbered rows, and a
trailer when more than five rows exist. -/
def format_results_simple (results : List Row) : List Char :=
  match results with
  | [[(_, v)]] => S "Result: " ++ v
  | _ =>
    let base := S "Found " ++ natL results.length ++ S " results:\n\n"
        ++ numberedLines 1 (results.take 5)
    if 5 < results.length then
      base ++ S "\n... and " ++ natL (results.length - 5) ++ S " more results"
    else base

/-- `AnswerGenerator.generate_answer` as a function of the rendering-service
outcome (`some text` = the service answered, `none` = it raised and the
deterministic fallback runs).  An empty row set short-circuits before any
external call. -/
def generate_answer (svc : Option (List Char)) (results : List Row) : List Char :=
  if results.isEmpty then S "No results found for your query."
  else
    match svc with
    | some text => text
    | none => format_results_simple results

/-- The three dict shapes `ClearQuoteNLSQL.process_query` returns.  Note the
`sql_generation` failure dict carries only `error` and `stage` — no `sql`
key — while the `execution` failure dict does carry the attempted SQL. -/
inductive PipelineResult
  | genFailed (error : List Char)
  | execFailed (error : List Char) (sql : List Char)
  | completed (query : List Char) (sql : List Char) (assumptions : List (List Char))
      (confidence : Rat) (row_count : Nat) (data : List Row) (answer : List Char)
deriving DecidableEq

/-- The `'stage'` value of each result dict. -/
def PipelineResult.stageTag : PipelineResult → List Char
  | .genFailed _ => S "sql_generation"
  | .execFailed _ _ => S "execution"
  | .completed _ _ _ _ _ _ _ => S "complete"

/-- The `'success'` value of each result dict. -/
def PipelineResult.successFlag : PipelineResult → Bool
  | .genFailed _ => false
  | .execFailed _ _ => false
  | .completed _ _ _ _ _ _ _ => true

/-- The `'sql'` value of each result dict (`none` = the key is absent). -/
def PipelineResult.sqlField : PipelineResult → Option (List Char)
  | .genFailed _ => none
  | .execFailed _ sql => some sql
  | .completed _ sql _ _ _ _ _ => some sql

/-- The external world for one pipeline invocation: the translation-service
outcome, the store's behaviour as a function of the SQL it is sent, and the
rendering-service outcome. -/
structure Env where
  llm : LLMOutcome
  db : List Char → DBBehavior
  svc : Option (List Char)

/-- `ClearQuoteNLSQL.process_query`.  Returns the result dict, the final
open-connection count, and the SQL string passed to
`DatabaseExecutor.execute_query` (`none` when the executor is never
invoked). -/
def process_query (env : Env) (nlq : List Char) (conns : Nat) :
    PipelineResult × Nat × Option (List Char) :=
  match generate_sql env.llm with
  | .genError e => (.genFailed e, conns, none)
  | .rejected e _sql => (.genFailed e, conns, none)
  | .ok j sql =>
    match execute_query (env.db sql) conns with
    | (.fail e, conns') => (.execFailed e sql, conns', some sql)
    | (.ok data, conns') =>
      let answer := generate_answer env.svc data
      (.completed nlq sql (j.assumptions.getD []) (j.confidence.getD 0)
        data.length data answer, conns', some sql)

/-- A run in which the translation service returns an accepted `SELECT`
and the store returns no rows; used to instantiate pipeline theorems. -/
def envAccepted : Env :=
  ⟨LLMOutcome.json ⟨some (S "SELECT * FROM vehicle_cards"), none, none, none⟩,
   fun _ => DBBehavior.returns [], some (S "No damaged vehicles found.")⟩

/-- A run in which the translation service returns a forbidden `DELETE`
statement, which the validator rejects. -/
def envRejectedSql : Env :=
  ⟨LLMOutcome.json ⟨some (S "DELETE FROM vehicle_cards"), none, none, none⟩,
   fun _ => DBBehavior.returns [], none⟩

/-! ## Generic list lemmas -/

theorem anySuffix_iff (p : List Char → Bool) (l : List Char) :
    anySuffix p l = true ↔ ∃ t, t <:+ l ∧ p t = true := by
  induction l with
  | nil => simp [anySuffix, List.suffix_nil]
  | cons c rest ih =>
    simp only [anySuffix, Bool.or_eq_true, ih]
    constructor
    · rintro (h | ⟨t, ht, hp⟩)
      · exact ⟨c :: rest, List.suffix_refl _, h⟩
      · exact ⟨t, ht.trans (List.suffix_cons c rest), hp⟩
    · rintro ⟨t, ht, hp⟩
      rcases List.suffix_cons_iff.mp ht with rfl | ht'
      · exact Or.inl hp
      · exact Or.inr ⟨t, ht', hp⟩

theorem sfx_append_cases {t a b : List Char} (h : t <:+ a ++ b) :
    t <:+ b ∨ ∃ t1, t1 <:+ a ∧ t1 ≠ [] ∧ t = t1 ++ b := by
  induction a with
  | nil => exact Or.inl h
  | cons c a' ih =>
    rcases List.suffix_cons_iff.mp h with h1 | h2
    · exact Or.inr ⟨c :: a', List.suffix_refl _, by simp, by simpa using h1⟩
    · rcases ih h2 with h3 | ⟨t1, ht1, hne, rfl⟩
      · exact Or.inl h3
      · exact Or.inr ⟨t1, ht1.trans (List.suffix_cons c a'), hne, rfl⟩

theorem pfx_append_cases {pat a b : List Char} (h : pat <+: a ++ b) :
    pat <+: a ∨ ∃ s, pat = a ++ s ∧ s <+: b := by
  induction a generalizing pat with
  | nil => exact Or.inr ⟨pat, rfl, h⟩
  | cons c a' ih =>
    obtain ⟨r, hr⟩ := h
    cases pat with
    | nil => exact Or.inl ⟨c :: a', rfl⟩
    | cons d pat' =>
      simp only [List.cons_append] at hr
      have hd : d = c := (List.cons.inj hr).1
      have hr' : pat' ++ r = a' ++ b := (List.cons.inj hr).2
      subst hd
      rcases ih ⟨r, hr'⟩ with h1 | ⟨s, rfl, hs⟩
      · obtain ⟨u, hu⟩ := h1
        exact Or.inl ⟨u, by simp [hu]⟩
      · exact Or.inr ⟨s, by simp, hs⟩

theorem ifx_of_pfx_of_sfx {pat t x : List Char} (h1 : pat <+: t) (h2 : t <:+ x) :
    pat <:+: x := by
  obtain ⟨v, rfl⟩ := h1
  obtain ⟨u, rfl⟩ := h2
  exact ⟨u, v, by simp⟩

theorem ifx_to_pfx_sfx {pat x : List Char} (h : pat <:+: x) :
    ∃ t, t <:+ x ∧ pat <+: t := by
  obtain ⟨u, v, huv⟩ := h
  exact ⟨pat ++ v, ⟨u, by simpa [List.append_assoc] using huv⟩, ⟨v, rfl⟩⟩

theorem ifx_append_cases {pat a b : List Char} (h : pat <:+: a ++ b) :
    pat <:+: a ∨ pat <:+: b ∨
      ∃ s t, pat = s ++ t ∧ s ≠ [] ∧ t ≠ [] ∧ s <:+ a ∧ t <+: b := by
  obtain ⟨w, hw, hp⟩ := ifx_to_pfx_sfx h
  rcases sfx_append_cases hw with hwb | ⟨t1, ht1, hne, rfl⟩
  · exact Or.inr (Or.inl (ifx_of_pfx_of_sfx hp hwb))
  · rcases pfx_append_cases hp with hp1 | ⟨s, rfl, hs⟩
    · exact Or.inl (ifx_of_pfx_of_sfx hp1 ht1)
    · rcases eq_or_ne s [] with rfl | hsne
      · exact Or.inl (ifx_of_pfx_of_sfx (by simp) ht1)
      · exact Or.inr (Or.inr ⟨t1, s, rfl, hne, hsne, ht1, hs⟩)

theorem no_ifx_append {pat a b : List Char}
    (ha : ¬ pat <:+: a) (hb : ¬ pat <:+: b)
    (hspan : ∀ i ∈ List.range pat.length, 0 < i → ¬ (pat.drop i <+: b)) :
    ¬ pat <:+: a ++ b := by
  intro h
  rcases ifx_append_cases h with h1 | h1 | ⟨s, t, rfl, hs, ht, hsa, htb⟩
  · exact ha h1
  · exact hb h1
  · have htl : 0 < t.length := List.length_pos.mpr ht
    have hlen : s.length < (s ++ t).length := by
      simp only [List.length_append]
      omega
    have hdrop : (s ++ t).drop s.length = t := List.drop_left s t
    have h0 : 0 < s.length := List.length_pos.mpr hs
    exact hspan s.length (List.mem_range.mpr hlen) h0 (by rw [hdrop]; exact htb)

theorem upper_append (a b : List Char) : upper (a ++ b) = upper a ++ upper b := by
  unfold upper
  exact List.map_append Char.toUpper a b

theorem ifx_upper {w q : List Char} (h : w <:+: q) : upper w <:+: upper q := by
  obtain ⟨u, v, huv⟩ := h
  exact ⟨upper u, upper v, by rw [← upper_append, ← upper_append, huv]⟩

theorem pfx_upper {w q : List Char} (h : w <+: q) : upper w <+: upper q := by
  obtain ⟨v, hv⟩ := h
  exact ⟨upper v, by rw [← upper_append, hv]⟩

theorem dropWhile_eq_self_of_all {p : Char → Bool} {l : List Char}
    (h : ∀ c ∈ l, p c = false) : l.dropWhile p = l := by
  cases l with
  | nil => rfl
  | cons c t => simp [List.dropWhile_cons, h c (by simp)]

theorem revDrop_pfx (p : Char → Bool) (l : List Char) :
    (l.reverse.dropWhile p).reverse <+: l := by
  have h : l.reverse.dropWhile p <:+ l.reverse := List.dropWhile_suffix p
  obtain ⟨s, hs⟩ := h
  refine ⟨s.reverse, ?_⟩
  calc (l.reverse.dropWhile p).reverse ++ s.reverse
      = (s ++ l.reverse.dropWhile p).reverse := by rw [List.reverse_append]
    _ = l.reverse.reverse := by rw [hs]
    _ = l := List.reverse_reverse l

theorem rstripSemi_pfx (q : List Char) : rstripSemi q <+: q := by
  unfold rstripSemi
  exact revDrop_pfx _ q

theorem rstripWs_pfx (q : List Char) : rstripWs q <+: q := by
  unfold rstripWs
  exact revDrop_pfx _ q

theorem rstripSemi_eq_self {q : List Char} (h : ';' ∉ q) : rstripSemi q = q := by
  unfold rstripSemi
  rw [dropWhile_eq_self_of_all, List.reverse_reverse]
  intro c hc
  have hcq : c ∈ q := List.mem_reverse.mp hc
  have hne : c ≠ ';' := fun e => h (e ▸ hcq)
  exact beq_eq_false_iff_ne.mpr hne

theorem lstripWs_append {a : List Char} (b : List Char) (h : lstripWs a ≠ []) :
    lstripWs (a ++ b) = lstripWs a ++ b := by
  unfold lstripWs at *
  rw [List.dropWhile_append]
  have : (a.dropWhile isWs).isEmpty = false := by
    cases he : a.dropWhile isWs with
    | nil => exact absurd he h
    | cons c t => rfl
  simp [this]

theorem rstripWs_snoc_semi (x : List Char) : rstripWs (x ++ [';']) = x ++ [';'] := by
  unfold rstripWs
  rw [List.reverse_append]
  have h1 : ([';'] : List Char).reverse = [';'] := rfl
  rw [h1]
  have h2 : isWs ';' = false := rfl
  simp [List.dropWhile_cons, h2]

theorem ciStarts_append_of_le {kw t : List Char} (b : List Char)
    (h : kw.length ≤ t.length) : ciStarts kw (t ++ b) = ciStarts kw t := by
  induction kw generalizing t with
  | nil => simp [ciStarts]
  | cons k ks ih =>
    cases t with
    | nil => simp at h
    | cons c cs =>
      simp only [List.cons_append, ciStarts]
      have hab : cs.append b = cs ++ b := rfl
      rw [hab, ih (by simpa using h)]

theorem ciStarts_append_split {kw t b : List Char}
    (h : ciStarts kw (t ++ b) = true) (hle : t.length ≤ kw.length) :
    ciStarts (kw.drop t.length) b = true := by
  induction t generalizing kw with
  | nil => simpa using h
  | cons c cs ih =>
    cases kw with
    | nil => simp at hle
    | cons k ks =>
      simp only [List.cons_append, ciStarts, Bool.and_eq_true] at h
      simpa using ih h.2 (by simpa using hle)

theorem hereDdash_append (b : List Char) :
    ∀ t : List Char, 3 ≤ t.length → hereDdash (t ++ b) = hereDdash t
  | _ :: _ :: _ :: _, _ => rfl

theorem headIs_append (a c : Char) (x y : List Char) :
    headIs a ((c :: x) ++ y) = headIs a (c :: x) := rfl

theorem afterOpen_append_lim {x : List Char} (hx : afterOpen x = false) :
    afterOpen (x ++ S " LIMIT 1000;") = false := by
  induction x with
  | nil => decide
  | cons c x' ih =>
    rw [List.cons_append]
    rw [show afterOpen (c :: (x' ++ S " LIMIT 1000;"))
        = ((c == '*' && headIs '/' (x' ++ S " LIMIT 1000;"))
           || (!(c == '\n') && afterOpen (x' ++ S " LIMIT 1000;"))) from rfl]
    rw [show afterOpen (c :: x')
        = ((c == '*' && headIs '/' x') || (!(c == '\n') && afterOpen x')) from rfl] at hx
    rw [Bool.or_eq_false_iff] at hx
    obtain ⟨hA, hB⟩ := hx
    by_cases hc : c = '\n'
    · subst hc
      have h1 : ('\n' == '*') = false := by decide
      have h2 : (!('\n' == '\n')) = false := by decide
      rw [h1, h2, Bool.false_and, Bool.false_and, Bool.or_false]
    · have hcf : (c == '\n') = false := beq_eq_false_iff_ne.mpr hc
      rw [hcf] at hB ⊢
      simp only [Bool.not_false, Bool.true_and] at hB ⊢
      rw [ih hB, Bool.or_false]
      cases x' with
      | nil =>
        have hh : headIs '/' (([] : List Char) ++ S " LIMIT 1000;") = false := by decide
        rw [hh, Bool.and_false]
      | cons d x'' =>
        rw [headIs_append]
        exact hA

/-! ## Characterization of the validator -/

theorem validate_accept_iff (q : List Char) :
    validate_query q = none ↔
      firstForbidden q = none ∧ selectOk q = true ∧ q.count ';' ≤ 1 ∧ firstInj q = none := by
  unfold validate_query
  cases h : firstForbidden q with
  | some kw => simp
  | none =>
    cases hs : selectOk q with
    | false => simp
    | true =>
      by_cases hc : 1 < q.count ';'
      · simp only [if_pos hc]
        constructor
        · intro he
          exact absurd he (by simp)
        · intro hr
          exact absurd hr.2.2.1 (by omega)
      · cases hi : firstInj q with
        | some p =>
          simp only [if_neg hc]
          constructor
          · intro he
            exact absurd he (by simp)
          · intro hr
            exact absurd hr.2.2.2 (by simp)
        | none =>
          simp only [if_neg hc]
          exact ⟨fun _ => ⟨by trivial, by trivial, by omega, by trivial⟩, fun _ => by trivial⟩

theorem anySuffix_of_here {p : List Char → Bool} {q t : List Char}
    (ht : t <:+ q) (hp : p t = true) : anySuffix p q = true :=
  (anySuffix_iff p q).mpr ⟨t, ht, hp⟩

theorem here_of_anySuffix_false {p : List Char → Bool} {q t : List Char}
    (hq : anySuffix p q = false) (ht : t <:+ q) : p t = false := by
  cases hx : p t with
  | false => rfl
  | true =>
    rw [anySuffix_of_here ht hx] at hq
    exact Bool.noConfusion hq

/-! ## Transfer lemmas: appending `" LIMIT 1000;"` preserves the checks -/

theorem count_append_lim (q : List Char) :
    (q ++ S " LIMIT 1000;").count ';' = q.count ';' + 1 := by
  rw [List.count_append]
  rw [show (S " LIMIT 1000;").count ';' = 1 from by decide]

theorem firstForbidden_append_lim {q : List Char} (h : firstForbidden q = none) :
    firstForbidden (q ++ S " LIMIT 1000;") = none := by
  unfold firstForbidden at *
  rw [List.find?_eq_none] at h ⊢
  intro kw hkw
  have hq : ¬ (kw <:+: upper q) := by
    have := h kw hkw
    simpa using this
  simp only [decide_eq_true_eq]
  rw [upper_append, show upper (S " LIMIT 1000;") = S " LIMIT 1000;" from by decide]
  refine no_ifx_append hq ?_ ?_
  · have hall : ∀ k ∈ FORBIDDEN_KEYWORDS, ¬ (k <:+: S " LIMIT 1000;") := by decide
    exact hall kw hkw
  · have hall : ∀ k ∈ FORBIDDEN_KEYWORDS, ∀ i ∈ List.range k.length, 0 < i →
        ¬ (k.drop i <+: S " LIMIT 1000;") := by decide
    exact hall kw hkw

theorem selectOk_append_lim {q : List Char} (h : selectOk q = true) :
    selectOk (q ++ S " LIMIT 1000;") = true := by
  unfold selectOk at *
  rw [decide_eq_true_eq] at h ⊢
  rw [upper_append, show upper (S " LIMIT 1000;") = S " LIMIT 1000;" from by decide]
  unfold pyStrip at *
  have h1 : S "SELECT" <+: lstripWs (upper q) := h.trans (rstripWs_pfx _)
  have hne : lstripWs (upper q) ≠ [] := by
    intro he
    rw [he] at h1
    obtain ⟨t, ht⟩ := h1
    simp [S] at ht
  rw [lstripWs_append _ hne]
  have hsplit : lstripWs (upper q) ++ S " LIMIT 1000;"
      = (lstripWs (upper q) ++ S " LIMIT 1000") ++ [';'] := by
    rw [List.append_assoc]
    rfl
  rw [hsplit, rstripWs_snoc_semi]
  obtain ⟨t, ht⟩ := h1
  refine ⟨t ++ S " LIMIT 1000" ++ [';'], ?_⟩
  rw [← ht]
  simp [List.append_assoc]

theorem anySuffix_append_lim {p : List Char → Bool} {q : List Char}
    (hq : anySuffix p q = false)
    (hB : anySuffix p (S " LIMIT 1000;") = false)
    (hcross : ∀ t, t <:+ q → t ≠ [] → p (t ++ S " LIMIT 1000;") = false) :
    anySuffix p (q ++ S " LIMIT 1000;") = false := by
  rw [Bool.eq_false_iff]
  intro htrue
  rw [anySuffix_iff] at htrue
  obtain ⟨t, ht, hp⟩ := htrue
  rcases sfx_append_cases ht with h1 | ⟨t1, ht1, hne, rfl⟩
  · have h2 : anySuffix p (S " LIMIT 1000;") = true := (anySuffix_iff _ _).mpr ⟨t, h1, hp⟩
    rw [hB] at h2
    exact Bool.noConfusion h2
  · rw [hcross t1 ht1 hne] at hp
    exact Bool.noConfusion hp

theorem hereSemiKw_cross {kw q : List Char} (hsemi : ';' ∉ q) :
    ∀ t, t <:+ q → t ≠ [] → hereSemiKw kw (t ++ S " LIMIT 1000;") = false := by
  intro t ht hne
  cases t with
  | nil => exact absurd rfl hne
  | cons c rest =>
    have hc : c ∈ q := by
      obtain ⟨s, hs⟩ := ht
      rw [← hs]
      simp
    have hcf : (c == ';') = false := beq_eq_false_iff_ne.mpr (fun e => hsemi (e ▸ hc))
    show (c == ';' && ciStarts kw ((rest ++ S " LIMIT 1000;").dropWhile isWs)) = false
    rw [hcf, Bool.false_and]

theorem hereDdash_cross {q : List Char}
    (hq : anySuffix hereDdash q = false) (hdd : ¬ (S "--") <:+ q) :
    ∀ t, t <:+ q → t ≠ [] → hereDdash (t ++ S " LIMIT 1000;") = false := by
  intro t ht hne
  match t, hne with
  | [c], _ =>
    rw [show ([c] : List Char) ++ S " LIMIT 1000;"
        = c :: ' ' :: 'L' :: S "IMIT 1000;" from rfl]
    rw [show hereDdash (c :: ' ' :: 'L' :: S "IMIT 1000;")
        = (c == '-' && ' ' == '-' && isWs 'L') from rfl]
    rw [show (' ' == '-') = false from rfl]
    rw [Bool.and_false, Bool.false_and]
  | [c, d], _ =>
    rw [show ([c, d] : List Char) ++ S " LIMIT 1000;"
        = c :: d :: ' ' :: S "LIMIT 1000;" from rfl]
    rw [show hereDdash (c :: d :: ' ' :: S "LIMIT 1000;")
        = (c == '-' && d == '-' && isWs ' ') from rfl]
    rw [show isWs ' ' = true from rfl, Bool.and_true]
    by_contra hcd
    rw [Bool.not_eq_false, Bool.and_eq_true] at hcd
    obtain ⟨hc1, hd1⟩ := hcd
    rw [beq_iff_eq] at hc1 hd1
    subst hc1
    subst hd1
    exact hdd ht
  | c :: d :: e :: rest, _ =>
    rw [hereDdash_append (S " LIMIT 1000;") (c :: d :: e :: rest) (by simp)]
    exact here_of_anySuffix_false hq ht

theorem hereComment_cross {q : List Char}
    (hq : anySuffix hereComment q = false) :
    ∀ t, t <:+ q → t ≠ [] → hereComment (t ++ S " LIMIT 1000;") = false := by
  intro t ht hne
  match t, hne with
  | [c], _ =>
    rw [show ([c] : List Char) ++ S " LIMIT 1000;"
        = c :: ' ' :: 'L' :: S "IMIT 1000;" from rfl]
    rw [show hereComment (c :: ' ' :: 'L' :: S "IMIT 1000;")
        = (c == '/' && ' ' == '*' && afterOpen ('L' :: S "IMIT 1000;")) from rfl]
    rw [show (' ' == '*') = false from rfl]
    rw [Bool.and_false, Bool.false_and]
  | c :: d :: rest, _ =>
    have hh : hereComment (c :: d :: rest) = false := here_of_anySuffix_false hq ht
    rw [show hereComment (c :: d :: rest)
        = (c == '/' && d == '*' && afterOpen rest) from rfl] at hh
    rw [show ((c :: d :: rest) ++ S " LIMIT 1000;")
        = (c :: d :: (rest ++ S " LIMIT 1000;")) from rfl]
    rw [show hereComment (c :: d :: (rest ++ S " LIMIT 1000;"))
        = (c == '/' && d == '*' && afterOpen (rest ++ S " LIMIT 1000;")) from rfl]
    cases hcd : (c == '/' && d == '*') with
    | false => rw [Bool.false_and]
    | true =>
      rw [Bool.true_and]
      rw [hcd, Bool.true_and] at hh
      exact afterOpen_append_lim hh

theorem hereAt_cross {q : List Char}
    (hq : anySuffix (fun l => ciStarts (S "@@VERSION") l) q = false) :
    ∀ t, t <:+ q → t ≠ [] →
      ciStarts (S "@@VERSION") (t ++ S " LIMIT 1000;") = false := by
  intro t ht hne
  by_cases hlen : (S "@@VERSION").length ≤ t.length
  · rw [ciStarts_append_of_le _ hlen]
    exact here_of_anySuffix_false hq ht
  · push_neg at hlen
    cases hci : ciStarts (S "@@VERSION") (t ++ S " LIMIT 1000;") with
    | false => rfl
    | true =>
      have hsp := ciStarts_append_split hci (le_of_lt hlen)
      have hfact : ∀ i ∈ List.range (S "@@VERSION").length, 0 < i →
          ciStarts ((S "@@VERSION").drop i) (S " LIMIT 1000;") = false := by decide
      have h0 : 0 < t.length := List.length_pos.mpr hne
      rw [hfact t.length (List.mem_range.mpr hlen) h0] at hsp
      exact Bool.noConfusion hsp

theorem hereKwParen_cross {kw q : List Char}
    (hq : anySuffix (hereKwParen kw) q = false)
    (hfact : ∀ i ∈ List.range kw.length, 0 < i →
        ciStarts (kw.drop i) (S " LIMIT 1000;") = false) :
    ∀ t, t <:+ q → t ≠ [] → hereKwParen kw (t ++ S " LIMIT 1000;") = false := by
  intro t ht hne
  unfold hereKwParen
  by_cases hlen : kw.length ≤ t.length
  · rw [ciStarts_append_of_le _ hlen]
    cases hci : ciStarts kw t with
    | false => rw [Bool.false_and]
    | true =>
      have hhq : hereKwParen kw t = false := here_of_anySuffix_false hq ht
      unfold hereKwParen at hhq
      rw [hci, Bool.true_and] at hhq
      rw [Bool.true_and]
      rw [List.drop_append_eq_append_drop, Nat.sub_eq_zero_of_le hlen, List.drop_zero]
      rw [List.dropWhile_append]
      cases hde : ((t.drop kw.length).dropWhile isWs).isEmpty with
      | true =>
        rw [if_pos rfl]
        decide
      | false =>
        rw [if_neg (by simp)]
        cases hdw : (t.drop kw.length).dropWhile isWs with
        | nil =>
          rw [hdw] at hde
          simp at hde
        | cons x xs =>
          rw [hdw] at hhq
          show (x == '(') = false
          exact hhq
  · push_neg at hlen
    cases hci : ciStarts kw (t ++ S " LIMIT 1000;") with
    | false => rw [Bool.false_and]
    | true =>
      have hsp := ciStarts_append_split hci (le_of_lt hlen)
      have h0 : 0 < t.length := List.length_pos.mpr hne
      rw [hfact t.length (List.mem_range.mpr hlen) h0] at hsp
      exact Bool.noConfusion hsp

theorem ifx_append_left {u b : List Char} (x : List Char) (h : u <:+: b) :
    u <:+: x ++ b := by
  obtain ⟨s, t, hst⟩ := h
  refine ⟨x ++ s, t, ?_⟩
  rw [← hst]
  simp [List.append_assoc]

theorem ifx_of_ifx_of_pfx {u a b : List Char} (h1 : u <:+: a) (h2 : a <+: b) :
    u <:+: b := by
  obtain ⟨s, t, hst⟩ := h1
  obtain ⟨w, hw⟩ := h2
  refine ⟨s, t ++ w, ?_⟩
  rw [← hw, ← hst]
  simp [List.append_assoc]

theorem firstInj_append_lim {q : List Char}
    (hi : firstInj q = none) (hsemi : ';' ∉ q) (hdd : ¬ (S "--") <:+ q) :
    firstInj (q ++ S " LIMIT 1000;") = none := by
  unfold firstInj at *
  rw [List.find?_eq_none] at hi ⊢
  intro p hp
  have hq : patMatch p q = false := by
    have := hi p hp
    simpa using this
  simp only [Bool.not_eq_true]
  cases p with
  | semiDrop =>
    exact anySuffix_append_lim hq (by decide) (hereSemiKw_cross hsemi)
  | semiDelete =>
    exact anySuffix_append_lim hq (by decide) (hereSemiKw_cross hsemi)
  | ddashWs =>
    exact anySuffix_append_lim hq (by decide) (hereDdash_cross hq hdd)
  | commentPat =>
    exact anySuffix_append_lim hq (by decide) (hereComment_cross hq)
  | atVersion =>
    exact anySuffix_append_lim hq (by decide) (hereAt_cross hq)
  | benchmarkCall =>
    exact anySuffix_append_lim hq (by decide) (hereKwParen_cross hq (by decide))
  | sleepCall =>
    exact anySuffix_append_lim hq (by decide) (hereKwParen_cross hq (by decide))

theorem validate_sanitize_accept {q : List Char}
    (hacc : validate_query q = none) (hsemi : ';' ∉ q) (hdd : ¬ (S "--") <:+ q) :
    validate_query (sanitize_limit q 1000) = none := by
  unfold sanitize_limit
  by_cases hP : (S "LIMIT") <:+: upper q
  · rw [if_pos (decide_eq_true hP)]
    exact hacc
  · rw [if_neg (by simpa using hP)]
    have hform : rstripSemi q ++ S " LIMIT " ++ natL 1000 ++ S ";"
        = q ++ S " LIMIT 1000;" := by
      rw [rstripSemi_eq_self hsemi]
      simp only [List.append_assoc]
      congr 1
    rw [hform]
    rw [validate_accept_iff] at hacc ⊢
    obtain ⟨hf, hs, hc, hi⟩ := hacc
    refine ⟨firstForbidden_append_lim hf, selectOk_append_lim hs, ?_,
      firstInj_append_lim hi hsemi hdd⟩
    rw [count_append_lim]
    have hz : q.count ';' = 0 := List.count_eq_zero.mpr hsemi
    omega

theorem sanitize_idem_1000 (q : List Char) :
    sanitize_limit (sanitize_limit q 1000) 1000 = sanitize_limit q 1000 := by
  by_cases hP : (S "LIMIT") <:+: upper q
  · have h1 : sanitize_limit q 1000 = q := by
      unfold sanitize_limit
      rw [if_pos (decide_eq_true hP)]
    rw [h1]
    unfold sanitize_limit
    rw [if_pos (decide_eq_true hP)]
  · have h1 : sanitize_limit q 1000
        = rstripSemi q ++ S " LIMIT " ++ natL 1000 ++ S ";" := by
      unfold sanitize_limit
      rw [if_neg (by simpa using hP)]
    rw [h1]
    unfold sanitize_limit
    have hinf : (S "LIMIT") <:+:
        upper (rstripSemi q ++ S " LIMIT " ++ natL 1000 ++ S ";") := by
      have hsplit : rstripSemi q ++ S " LIMIT " ++ natL 1000 ++ S ";"
          = rstripSemi q ++ (S " LIMIT " ++ natL 1000 ++ S ";") := by
        simp [List.append_assoc]
      rw [hsplit, upper_append]
      exact ifx_append_left _ (by decide)
    rw [if_pos (decide_eq_true hinf)]

theorem countOccur_append {pat : List Char} (b : List Char) :
    ∀ a : List Char, (∀ t, t <:+ a → t ≠ [] → ¬ (pat <+: t ++ b)) →
      countOccur pat (a ++ b) = countOccur pat b := by
  intro a
  induction a with
  | nil => intro _; rfl
  | cons c a' ih =>
    intro h
    show (if pat <+: (c :: (a' ++ b)) then 1 else 0) + countOccur pat (a' ++ b) = _
    rw [if_neg (show ¬ pat <+: c :: (a' ++ b) from
      h (c :: a') (List.suffix_refl _) (by simp))]
    rw [Nat.zero_add]
    exact ih (fun t ht hne => h t (ht.trans (List.suffix_cons c a')) hne)

theorem limit_not_pfx_cross {q : List Char}
    (hlim : ¬ (S "LIMIT") <:+: upper q) :
    ∀ t, t <:+ upper (rstripSemi q) → t ≠ [] →
      ¬ (S "LIMIT") <+: t ++ S " LIMIT 1000;" := by
  intro t ht hne hpfx
  have hup : upper (rstripSemi q) <+: upper q := pfx_upper (rstripSemi_pfx q)
  rcases pfx_append_cases hpfx with h1 | ⟨s, hs, hsb⟩
  · exact hlim (ifx_of_ifx_of_pfx (ifx_of_pfx_of_sfx h1 ht) hup)
  · rcases eq_or_ne s [] with rfl | hsne
    · rw [List.append_nil] at hs
      have h1 : (S "LIMIT") <+: t := by
        rw [hs]
      exact hlim (ifx_of_ifx_of_pfx (ifx_of_pfx_of_sfx h1 ht) hup)
    · have hlen : t.length < (S "LIMIT").length := by
        have hlc := congrArg List.length hs
        rw [List.length_append] at hlc
        have hp : 0 < s.length := List.length_pos.mpr hsne
        omega
      have h0 : 0 < t.length := List.length_pos.mpr hne
      have hdropfact : ∀ i ∈ List.range (S "LIMIT").length, 0 < i →
          ¬ ((S "LIMIT").drop i <+: S " LIMIT 1000;") := by decide
      have hseq : (S "LIMIT").drop t.length = s := by
        rw [hs]
        exact List.drop_left t s
      refine hdropfact t.length (List.mem_range.mpr hlen) h0 ?_
      rw [hseq]
      exact hsb

theorem sanitize_no_limit_form {q : List Char}
    (hlim : ¬ (S "LIMIT") <:+: upper q) :
    sanitize_limit q 1000 = rstripSemi q ++ S " LIMIT 1000;"
      ∧ countOccur (S "LIMIT") (upper (sanitize_limit q 1000)) = 1 := by
  have hform : sanitize_limit q 1000 = rstripSemi q ++ S " LIMIT 1000;" := by
    unfold sanitize_limit
    rw [if_neg (by simpa using hlim)]
    simp only [List.append_assoc]
    congr 1
  refine ⟨hform, ?_⟩
  rw [hform, upper_append, show upper (S " LIMIT 1000;") = S " LIMIT 1000;" from by decide]
  rw [countOccur_append (S " LIMIT 1000;") (upper (rstripSemi q))
    (limit_not_pfx_cross hlim)]
  decide

theorem validate_eval_injection {q : List Char} {p0 : PatId}
    (hf : firstForbidden q = none) (hs : selectOk q = true)
    (hc : q.count ';' ≤ 1) (hi : firstInj q = some p0) :
    validate_query q = some (Reason.injection p0) := by
  unfold validate_query
  rw [hf, hs, hi]
  rw [if_pos rfl, if_neg (by omega)]

theorem generate_sql_ok {o : LLMOutcome} {j : RespJson} {sql : List Char}
    (h : generate_sql o = GenResult.ok j sql) :
    ∃ cand, validate_query cand = none ∧ sql = sanitize_limit cand 1000 := by
  cases o with
  | exn e => simp [generate_sql] at h
  | json j' =>
    simp only [generate_sql] at h
    cases hv : validate_query (j'.sql.getD []) with
    | some r =>
      rw [hv] at h
      simp at h
    | none =>
      rw [hv] at h
      simp at h
      exact ⟨j'.sql.getD [], hv, h.2.symm⟩

theorem generate_sql_rejected_eq {j : RespJson} {r : Reason}
    (hval : validate_query (j.sql.getD []) = some r) :
    generate_sql (LLMOutcome.json j)
      = GenResult.rejected (S "Generated SQL failed validation: " ++ reasonText r)
          (j.sql.getD []) := by
  simp only [generate_sql]
  rw [hval]

/-! ## Claim theorems -/

/-- C7: `validate_query` applies its checks in the fixed order
forbidden-operation scan, SELECT-start check, single-statement check,
injection-pattern scan; the first failing check short-circuits and
determines the rejection reason.  `firstForbidden` and `firstInj` are the
first hit of the respective scan in configured order, so each reason below
is produced exactly when every earlier check passes and its own check is
the first to fail. -/
theorem C7_check_order (q : List Char) :
    (∀ kw, validate_query q = some (Reason.forbidden kw) ↔ firstForbidden q = some kw)
  ∧ (validate_query q = some Reason.notSelect ↔
      firstForbidden q = none ∧ selectOk q = false)
  ∧ (validate_query q = some Reason.multipleStatements ↔
      firstForbidden q = none ∧ selectOk q = true ∧ 1 < q.count ';')
  ∧ (∀ p, validate_query q = some (Reason.injection p) ↔
      firstForbidden q = none ∧ selectOk q = true ∧ q.count ';' ≤ 1 ∧ firstInj q = some p)
  ∧ (validate_query q = none ↔
      firstForbidden q = none ∧ selectOk q = true ∧ q.count ';' ≤ 1 ∧ firstInj q = none) := by
  refine ⟨?_, ?_, ?_, ?_, validate_accept_iff q⟩ <;> unfold validate_query
  · intro kw
    cases h : firstForbidden q with
    | some kw0 => simp
    | none =>
      cases hs : selectOk q with
      | false => simp
      | true =>
        by_cases hc : 1 < q.count ';'
        · simp [if_pos hc]
        · cases hi : firstInj q with
          | some p => simp [if_neg hc]
          | none => simp [if_neg hc]
  · cases h : firstForbidden q with
    | some kw0 => simp
    | none =>
      cases hs : selectOk q with
      | false => simp
      | true =>
        by_cases hc : 1 < q.count ';'
        · simp [if_pos hc]
        · cases hi : firstInj q with
          | some p => simp [if_neg hc]
          | none => simp [if_neg hc]
  · cases h : firstForbidden q with
    | some kw0 => simp
    | none =>
      cases hs : selectOk q with
      | false => simp
      | true =>
        by_cases hc : 1 < q.count ';'
        · simp [if_pos hc, hc]
        · cases hi : firstInj q with
          | some p => simp [if_neg hc, hc]
          | none => simp [if_neg hc, hc]
  · intro p
    cases h : firstForbidden q with
    | some kw0 => simp
    | none =>
      cases hs : selectOk q with
      | false => simp
      | true =>
        by_cases hc : 1 < q.count ';'
        · simp only [if_pos hc]
          constructor
          · intro he
            exact absurd he (by simp)
          · intro hr
            exact absurd hr.2.2.1 (by omega)
        · cases hi : firstInj q with
          | some p0 =>
            simp only [if_neg hc]
            constructor
            · intro he
              simp at he
              subst he
              exact ⟨by trivial, by trivial, by omega, by trivial⟩
            · intro hr
              have hp : p = p0 := by
                have := hr.2.2.2
                exact (by simpa using this : p0 = p).symm
              subst hp
              simp
          | none =>
            simp only [if_neg hc]
            constructor
            · intro he
              exact absurd he (by simp)
            · intro hr
              exact absurd hr.2.2.2 (by simp)

/-- C1: whenever `process_query` invokes the executor, the SQL string passed
to it is the row-cap normalization of a candidate that `validate_query`
accepted; and when the candidate is rejected by `validate_query`, the
executor is never invoked. -/
theorem C1_executor_only_validated (env : Env) (nlq : List Char) (conns : Nat) :
    (∀ s, (process_query env nlq conns).2.2 = some s →
        ∃ cand, validate_query cand = none ∧ s = sanitize_limit cand 1000)
  ∧ (∀ j r, env.llm = LLMOutcome.json j →
        validate_query (j.sql.getD []) = some r →
        (process_query env nlq conns).2.2 = none) := by
  constructor
  · intro s hs
    unfold process_query at hs
    cases hg : generate_sql env.llm with
    | genError e =>
      rw [hg] at hs
      simp at hs
    | rejected e c =>
      rw [hg] at hs
      simp at hs
    | ok j sql =>
      rw [hg] at hs
      obtain ⟨cand, hv, hsan⟩ := generate_sql_ok hg
      rcases he : execute_query (env.db sql) conns with ⟨r, conns'⟩
      cases r with
      | fail e =>
        simp [he] at hs
        exact ⟨cand, hv, by rw [← hs, hsan]⟩
      | ok data =>
        simp [he] at hs
        exact ⟨cand, hv, by rw [← hs, hsan]⟩
  · intro j r hllm hval
    unfold process_query
    rw [hllm, generate_sql_rejected_eq hval]

/-- C1 witness: in the `envAccepted` run the executor receives
`"SELECT * FROM vehicle_cards LIMIT 1000;"`, which is the normalization of
a validator-accepted candidate. -/
theorem C1_witness :
    ∃ cand, validate_query cand = none ∧
      S "SELECT * FROM vehicle_cards LIMIT 1000;" = sanitize_limit cand 1000 :=
  (C1_executor_only_validated envAccepted (S "show all vehicle cards") 0).1
    (S "SELECT * FROM vehicle_cards LIMIT 1000;") (by decide)

/-- C2 (failing input): the configured forbidden token `xp_cmdshell` occurs
verbatim in the query, yet `validate_query` accepts it — the token is stored
lower-case but compared against the upper-cased query, so it can never
match.  This contradicts the claim that every configured forbidden token is
detected case-insensitively at any position. -/
theorem C2_xp_cmdshell_not_detected :
    (S "xp_cmdshell") ∈ FORBIDDEN_KEYWORDS
  ∧ (S "xp_cmdshell") <:+: (S "select xp_cmdshell('dir')")
  ∧ validate_query (S "select xp_cmdshell('dir')") = none := by
  refine ⟨by decide, by decide, by decide⟩

/-- C3 (counterexample): `sanitize_limit` appends `" LIMIT 1000;"` with a
trailing semicolon, so the normalized scenario string is not the claimed
`"SELECT * FROM vehicle_cards LIMIT 1000"`. -/
theorem C3_counterexample :
    validate_query (S "SELECT * FROM vehicle_cards") = none
  ∧ sanitize_limit (S "SELECT * FROM vehicle_cards") 1000
      ≠ S "SELECT * FROM vehicle_cards LIMIT 1000"
  ∧ sanitize_limit (S "SELECT * FROM vehicle_cards") 1000
      = S "SELECT * FROM vehicle_cards LIMIT 1000;" := by
  refine ⟨by decide, by decide, by decide⟩

/-- C3 (amended): for an accepted query with no `LIMIT` (any case), the
normalized SQL is the query with trailing `';'` stripped and exactly one
`" LIMIT 1000;"` clause appended — one occurrence of `LIMIT` in all — while
a query already containing `LIMIT` is returned unchanged; the scenario
input normalizes to `"SELECT * FROM vehicle_cards LIMIT 1000;"` (with the
trailing semicolon the code's format string appends). -/
theorem C3_amended (q : List Char) (hacc : validate_query q = none) :
    (¬ (S "LIMIT") <:+: upper q →
      sanitize_limit q 1000 = rstripSemi q ++ S " LIMIT 1000;"
        ∧ countOccur (S "LIMIT") (upper (sanitize_limit q 1000)) = 1)
  ∧ ((S "LIMIT") <:+: upper q → sanitize_limit q 1000 = q)
  ∧ sanitize_limit (S "SELECT * FROM vehicle_cards") 1000
      = S "SELECT * FROM vehicle_cards LIMIT 1000;" := by
  refine ⟨fun h => sanitize_no_limit_form h, fun h => ?_, by decide⟩
  unfold sanitize_limit
  rw [if_pos (decide_eq_true h)]

/-- C3 witness at the accepted query `"SELECT * FROM damage_detections"`. -/
theorem C3_witness :
    (¬ (S "LIMIT") <:+: upper (S "SELECT * FROM damage_detections") →
      sanitize_limit (S "SELECT * FROM damage_detections") 1000
          = rstripSemi (S "SELECT * FROM damage_detections") ++ S " LIMIT 1000;"
        ∧ countOccur (S "LIMIT")
            (upper (sanitize_limit (S "SELECT * FROM damage_detections") 1000)) = 1)
  ∧ ((S "LIMIT") <:+: upper (S "SELECT * FROM damage_detections") →
      sanitize_limit (S "SELECT * FROM damage_detections") 1000
        = S "SELECT * FROM damage_detections")
  ∧ sanitize_limit (S "SELECT * FROM vehicle_cards") 1000
      = S "SELECT * FROM vehicle_cards LIMIT 1000;" :=
  C3_amended (S "SELECT * FROM damage_detections") (by decide)

/-- C4 (failing input): when `cursor.execute`/`fetchall` raises after
`psycopg2.connect` succeeded, `execute_query`'s `except` branch returns the
error dict without closing the connection — the open-connection count rises
from 0 to 1 and stays there.  On the success path the connection is closed.
The code has no `finally`/`with`, so the claimed unconditional release does
not hold. -/
theorem C4_connection_leak :
    execute_query (DBBehavior.execFails (S "relation \"missing\" does not exist")) 0
      = (ExecResult.fail (S "relation \"missing\" does not exist"), 1)
  ∧ execute_query (DBBehavior.returns []) 0 = (ExecResult.ok [], 0)
  ∧ execute_query (DBBehavior.connectFails (S "connection refused")) 0
      = (ExecResult.fail (S "connection refused"), 0) := by
  refine ⟨rfl, rfl, rfl⟩

/-- C5 (counterexample): the translator rejects the candidate
`"DELETE FROM vehicle_cards"` and keeps it in its own failure dict, but the
pipeline's `sql_generation` failure result has no `sql` entry at all — the
rejected SQL is not carried in the result `process_query` returns. -/
theorem C5_counterexample :
    generate_sql envRejectedSql.llm
      = GenResult.rejected
          (S "Generated SQL failed validation: Forbidden operation detected: DELETE")
          (S "DELETE FROM vehicle_cards")
  ∧ (process_query envRejectedSql (S "wipe the cards") 0).1.sqlField = none := by
  refine ⟨by decide, by decide⟩

/-- C5 (amended): when the translator rejects the candidate SQL, the
pipeline result is `success=false` at stage `sql_generation` carrying the
translator's error message (which embeds the validator's reason), but the
rejected candidate SQL itself is dropped: the result has no `sql` field. -/
theorem C5_amended (env : Env) (nlq : List Char) (conns : Nat) (e c : List Char)
    (h : generate_sql env.llm = GenResult.rejected e c) :
    (process_query env nlq conns).1 = PipelineResult.genFailed e
  ∧ (process_query env nlq conns).1.sqlField = none := by
  unfold process_query
  rw [h]
  exact ⟨rfl, rfl⟩

/-- C5 witness at the rejected-`DELETE` run. -/
theorem C5_witness :
    (process_query envRejectedSql (S "wipe the cards") 0).1
        = PipelineResult.genFailed
            (S "Generated SQL failed validation: Forbidden operation detected: DELETE")
  ∧ (process_query envRejectedSql (S "wipe the cards") 0).1.sqlField = none :=
  C5_amended envRejectedSql (S "wipe the cards") 0
    (S "Generated SQL failed validation: Forbidden operation detected: DELETE")
    (S "DELETE FROM vehicle_cards") (by decide)

/-- C6: every `process_query` result carries exactly one stage tag, drawn
from `sql_generation`, `execution`, `complete`, and `success` is true
exactly when the stage is `complete`. -/
theorem C6_stage_tag (env : Env) (nlq : List Char) (conns : Nat) :
    ((process_query env nlq conns).1.stageTag = S "sql_generation"
      ∨ (process_query env nlq conns).1.stageTag = S "execution"
      ∨ (process_query env nlq conns).1.stageTag = S "complete")
  ∧ ((process_query env nlq conns).1.successFlag = true
      ↔ (process_query env nlq conns).1.stageTag = S "complete") := by
  cases h : (process_query env nlq conns).1 with
  | genFailed e =>
    exact ⟨Or.inl rfl, fun hh => Bool.noConfusion hh,
      fun hh => absurd hh (show ¬ (S "sql_generation") = S "complete" from by decide)⟩
  | execFailed e sql =>
    exact ⟨Or.inr (Or.inl rfl), fun hh => Bool.noConfusion hh,
      fun hh => absurd hh (show ¬ (S "execution") = S "complete" from by decide)⟩
  | completed query sql assumptions confidence row_count data answer =>
    exact ⟨Or.inr (Or.inr rfl), fun _ => rfl, fun _ => rfl⟩

/-- C6 witness at a concrete run. -/
theorem C6_witness :
    ((process_query envAccepted (S "show all vehicle cards") 0).1.stageTag
        = S "sql_generation"
      ∨ (process_query envAccepted (S "show all vehicle cards") 0).1.stageTag
        = S "execution"
      ∨ (process_query envAccepted (S "show all vehicle cards") 0).1.stageTag
        = S "complete")
  ∧ ((process_query envAccepted (S "show all vehicle cards") 0).1.successFlag = true
      ↔ (process_query envAccepted (S "show all vehicle cards") 0).1.stageTag
        = S "complete") :=
  C6_stage_tag envAccepted (S "show all vehicle cards") 0

/-- C7 witness: on `"drop table vehicle_cards"` the first check fires and
fixes the reason. -/
theorem C7_witness :
    validate_query (S "drop table vehicle_cards")
      = some (Reason.forbidden (S "DROP")) :=
  ((C7_check_order (S "drop table vehicle_cards")).1 (S "DROP")).mpr (by decide)

/-- C8 (counterexample): `"; DROP TABLE vehicle_cards"` matches the
configured injection regex `;\s*DROP`, but the rejection reason is the
forbidden-operation reason for `DROP` — the forbidden-keyword scan runs
first and shadows the injection scan, so the reason is not an
injection-pattern reason. -/
theorem C8_counterexample :
    patMatch PatId.semiDrop (S "; DROP TABLE vehicle_cards") = true
  ∧ validate_query (S "; DROP TABLE vehicle_cards")
      = some (Reason.forbidden (S "DROP")) := by
  refine ⟨by decide, by decide⟩

/-- C8 (amended): every string matching a configured injection regex is
rejected by `validate_query`; and when no earlier check fires (no forbidden
token, SELECT start, at most one `';'`), the reason is the injection reason
of the first matching pattern in configured order. -/
theorem C8_amended (q : List Char) (p : PatId) (hm : patMatch p q = true) :
    validate_query q ≠ none
  ∧ (firstForbidden q = none → selectOk q = true → q.count ';' ≤ 1 →
      ∃ p0, firstInj q = some p0
        ∧ validate_query q = some (Reason.injection p0)) := by
  have hmem : p ∈ INJ_LIST := by cases p <;> decide
  constructor
  · intro hacc
    rw [validate_accept_iff] at hacc
    obtain ⟨-, -, -, hi⟩ := hacc
    unfold firstInj at hi
    rw [List.find?_eq_none] at hi
    exact absurd hm (by simpa using hi p hmem)
  · intro hf hs hc
    cases hi : firstInj q with
    | none =>
      unfold firstInj at hi
      rw [List.find?_eq_none] at hi
      exact absurd hm (by simpa using hi p hmem)
    | some p0 =>
      exact ⟨p0, rfl, validate_eval_injection hf hs hc hi⟩

/-- C8 witness: `"SELECT sleep (2)"` matches `sleep\s*\(` and, with all
earlier checks passing, is rejected with that pattern's injection reason. -/
theorem C8_witness :
    validate_query (S "SELECT sleep (2)") ≠ none
  ∧ (firstForbidden (S "SELECT sleep (2)") = none →
      selectOk (S "SELECT sleep (2)") = true →
      (S "SELECT sleep (2)").count ';' ≤ 1 →
      ∃ p0, firstInj (S "SELECT sleep (2)") = some p0
        ∧ validate_query (S "SELECT sleep (2)") = some (Reason.injection p0)) :=
  C8_amended (S "SELECT sleep (2)") PatId.sleepCall (by decide)

/-- C9 (counterexample): `"SELECT ';' FROM quotes"` is accepted (one
statement terminator), but normalization appends `" LIMIT 1000;"`, raising
the terminator count to two, so re-validating the normalized output is
rejected with the multiple-statements reason — validation followed by
normalization is not idempotent as claimed. -/
theorem C9_counterexample :
    validate_query (S "SELECT ';' FROM quotes") = none
  ∧ validate_query (sanitize_limit (S "SELECT ';' FROM quotes") 1000)
      = some Reason.multipleStatements := by
  refine ⟨by decide, by decide⟩

/-- C9 (amended): normalization is idempotent on its own output for every
query, and re-validating the normalized output of an accepted query yields
accepted provided the query contains no `';'` and does not end in `"--"`
(either condition can make the appended `" LIMIT 1000;"` trip the
terminator count or the `--\s` injection regex). -/
theorem C9_amended (q : List Char) (hacc : validate_query q = none)
    (hsemi : ';' ∉ q) (hdd : ¬ (S "--") <:+ q) :
    validate_query (sanitize_limit q 1000) = none
  ∧ sanitize_limit (sanitize_limit q 1000) 1000 = sanitize_limit q 1000 :=
  ⟨validate_sanitize_accept hacc hsemi hdd, sanitize_idem_1000 q⟩

/-- C9 witness at the accepted query `"SELECT * FROM repairs"`. -/
theorem C9_witness :
    validate_query (sanitize_limit (S "SELECT * FROM repairs") 1000) = none
  ∧ sanitize_limit (sanitize_limit (S "SELECT * FROM repairs") 1000) 1000
      = sanitize_limit (S "SELECT * FROM repairs") 1000 :=
  C9_amended (S "SELECT * FROM repairs") (by decide) (by decide) (by decide)

/-- C10: any query containing the letter sequence `limit` in any case
anywhere — also inside an identifier or literal — is returned unchanged by
`sanitize_limit`, so no row cap is appended to it. -/
theorem C10_limit_anywhere_blocks_cap (q : List Char) (n : Nat)
    (h : ∃ w, w <:+: q ∧ upper w = S "LIMIT") :
    sanitize_limit q n = q := by
  obtain ⟨w, hw, hu⟩ := h
  have hinf : (S "LIMIT") <:+: upper q := by
    rw [← hu]
    exact ifx_upper hw
  unfold sanitize_limit
  rw [if_pos (decide_eq_true hinf)]

/-- C10 witness: `limit` occurs only inside the alias `limited_cost`, and
the query is returned unchanged, without any row cap. -/
theorem C10_witness :
    sanitize_limit (S "SELECT repair_cost AS limited_cost FROM repairs") 777
      = S "SELECT repair_cost AS limited_cost FROM repairs" :=
  C10_limit_anywhere_blocks_cap (S "SELECT repair_cost AS limited_cost FROM repairs")
    777 ⟨S "limit", by decide, by decide⟩
